import Mathlib

/-!
The package `envy`: environment variables with defaults and batched error
reporting.

A shallow embedding of the Go package `envy` (`src/envy.go`) together with the
pieces of the Go standard library it calls (`os.Getenv`, `fmt.Errorf`,
`strconv.Atoi`).

* A Go `string` is a sequence of bytes: `GoString := List (Fin 256)`.
* The registry `Env` is passed explicitly: a method of `Var` that touches
  `me.env` takes the state of the registry the `Var` points to and returns
  the state after the call (the pointer field `env` of `Var` is this
  threading of the state).
* Go's `int` is the 64-bit signed type; arithmetic on it is written on `Int`
  with an explicit two's complement wrap, arithmetic on `uint64` on `Nat`
  with an explicit `% 2^64`.
-/

/-- A Go string: a finite sequence of bytes. -/
abbrev GoString := List (Fin 256)

/-- The bytes of an ASCII string literal of the source. -/
def lit (s : String) : GoString := s.data.map (fun c => Fin.ofNat c.toNat)

/-- A Go `error` value built from a message (`errors.errorString`), which is
what `fmt.Errorf` returns for a format without `%w`. -/
structure errorString where
  s : GoString
deriving DecidableEq, Repr

/-- The process environment: the value of a variable, `none` when unset. -/
abbrev Environ := GoString → Option GoString

namespace os

/-- Go `os.Getenv`: the value of the variable, the empty string when unset. -/
def Getenv (environ : Environ) (key : GoString) : GoString :=
  match environ key with
  | some v => v
  | none => []

end os

namespace strconv

/-- The two sentinel errors of `strconv`: `ErrSyntax`, `ErrRange`. -/
inductive Sentinel where
  | ErrSyntax
  | ErrRange
deriving DecidableEq, Repr

/-- Message of a sentinel: `errors.New("invalid syntax")`,
`errors.New("value out of range")`. -/
def Sentinel.Error : Sentinel → GoString
  | .ErrSyntax => lit "invalid syntax"
  | .ErrRange => lit "value out of range"

/-- Go `strconv.NumError`. -/
structure NumError where
  Func : GoString
  Num : GoString
  Err : Sentinel
deriving DecidableEq, Repr

/-- Go `(*NumError).Error`:
`"strconv." + e.Func + ": " + "parsing " + Quote(e.Num) + ": " + e.Err.Error()`.
`Quote` (`strconv.Quote`) is taken as a parameter. -/
def NumError.Error (Quote : GoString → GoString) (e : NumError) : GoString :=
  lit "strconv." ++ e.Func ++ lit ": " ++ lit "parsing " ++ Quote e.Num ++ lit ": "
    ++ e.Err.Error

/-- Go `syntaxError(fn, str) = &NumError{fn, cloneString(str), ErrSyntax}`. -/
def syntaxError (fn str : GoString) : NumError := ⟨fn, str, .ErrSyntax⟩

/-- Go `rangeError(fn, str) = &NumError{fn, cloneString(str), ErrRange}`. -/
def rangeError (fn str : GoString) : NumError := ⟨fn, str, .ErrRange⟩

/-- Go `const intSize = 32 << (^uint(0) >> 63)` on a 64-bit platform. -/
def intSize : Nat := 64

/-- Go `const IntSize = intSize`. -/
def IntSize : Nat := intSize

/-- Go `const maxUint64 = 1<<64 - 1`. -/
def maxUint64 : Nat := 18446744073709551615

/-- Conversion of a `uint64` to `int64` (two's complement reinterpretation),
also the wrap of an `int64` result computed in `Int`. -/
def wrap64 (i : Int) : Int := (i + 9223372036854775808) % 18446744073709551616 - 9223372036854775808

/-- Go `lower(c) = c | ('x' - 'X')`. -/
def lower (c : Fin 256) : Nat := c.val ||| 32

def fnParseUint : GoString := lit "ParseUint"
def fnParseInt : GoString := lit "ParseInt"
def fnAtoi : GoString := lit "Atoi"

/-- The digit `switch` in the loop of `ParseUint`, for `base0 = false`:
`some d` for the value `d` of the byte, `none` for the `default` case.
(The case `c == '_' && base0` never applies when `base` is not 0.) -/
def digitOf (c : Fin 256) : Option Nat :=
  if 48 ≤ c.val ∧ c.val ≤ 57 then some (c.val - 48)
  else if 97 ≤ lower c ∧ lower c ≤ 122 then some ((lower c - 97 + 10) % 256)
  else none

/-- The loop `for _, c := range []byte(s)` of `ParseUint`, on the bytes still
to read and the accumulator `n`. -/
def parseUintLoop (s0 : GoString) (base cutoff maxVal : Nat) :
    List (Fin 256) → Nat → Nat × Option NumError
  | [], n => (n, none)
  | c :: cs, n =>
    match digitOf c with
    | none => (0, some (syntaxError fnParseUint s0))
    | some d =>
      if d ≥ base % 256 then (0, some (syntaxError fnParseUint s0))
      else if n ≥ cutoff then (maxVal, some (rangeError fnParseUint s0))
      else
        let n' := (n * base) % 18446744073709551616
        let n1 := (n' + d) % 18446744073709551616
        if n1 < n' ∨ n1 > maxVal then (maxVal, some (rangeError fnParseUint s0))
        else parseUintLoop s0 base cutoff maxVal cs n1

/-- Go `strconv.ParseUint(s, 10, 0)`: the call made (through `ParseInt`) by
`Atoi`. With `base = 10` the base is valid and `base0` is false, with
`bitSize = 0` the size is `IntSize`. -/
def ParseUint (s : GoString) : Nat × Option NumError :=
  if s = [] then (0, some (syntaxError fnParseUint s))
  else
    let s0 := s
    let base := 10
    let bitSize := IntSize
    let cutoff := maxUint64 / 10 + 1
    let maxVal := (2 ^ bitSize % 18446744073709551616 + 18446744073709551616 - 1)
      % 18446744073709551616
    parseUintLoop s0 base cutoff maxVal s 0

/-- Go `strconv.ParseInt(s, 10, 0)`. -/
def ParseInt (s : GoString) : Int × Option NumError :=
  if s = [] then (0, some (syntaxError fnParseInt s))
  else
    let s0 := s
    let neg := decide (s.head? = some 45)
    let s := if s.head? = some 43 then s.tail else if s.head? = some 45 then s.tail else s
    let (un, err) := ParseUint s
    match (match err with
           | some e => if e.Err ≠ Sentinel.ErrRange then some e else none
           | none => none) with
    | some e => (0, some { e with Func := fnParseInt, Num := s0 })
    | none =>
      let bitSize := IntSize
      let cutoff := 2 ^ (bitSize - 1) % 18446744073709551616
      if !neg ∧ un ≥ cutoff then
        (wrap64 ((cutoff + 18446744073709551616 - 1) % 18446744073709551616),
          some (rangeError fnParseInt s0))
      else if neg ∧ un > cutoff then
        (wrap64 (-(wrap64 cutoff)), some (rangeError fnParseInt s0))
      else
        let n := wrap64 un
        let n := if neg then wrap64 (-n) else n
        (n, none)

/-- The loop of the fast path of `Atoi`: `none` when a byte is not a digit. -/
def atoiLoop : List (Fin 256) → Int → Option Int
  | [], n => some n
  | ch :: cs, n =>
    let ch' := (ch.val + 256 - 48) % 256
    if ch' > 9 then none
    else atoiLoop cs (wrap64 (n * 10 + ch'))

/-- Go `strconv.Atoi`: the value and the error (`none` for `nil`). -/
def Atoi (s : GoString) : Int × Option NumError :=
  let sLen := s.length
  if (intSize = 32 ∧ (0 < sLen ∧ sLen < 10)) ∨ (intSize = 64 ∧ (0 < sLen ∧ sLen < 19)) then
    let s0 := s
    let signed := decide (s.head? = some 45 ∨ s.head? = some 43)
    let s := if signed then s.tail else s
    if signed ∧ s.length < 1 then (0, some (syntaxError fnAtoi s0))
    else
      match atoiLoop s 0 with
      | none => (0, some (syntaxError fnAtoi s0))
      | some n =>
        let n := if s0.head? = some 45 then wrap64 (-n) else n
        (n, none)
  else
    let (i64, err) := ParseInt s
    let err := err.map (fun nerr => { nerr with Func := fnAtoi })
    (wrap64 i64, err)

end strconv

namespace envy

/-- Go `type Env struct { errors []error }`. -/
structure Env where
  errors : List errorString
deriving DecidableEq, Repr

/-- Go `NewEnv`. -/
def NewEnv : Env := { errors := [] }

/-- Go `type Var struct`: `key`, `value`, `hasDefaultValue`; the field `env`
is the registry state passed to the methods below. -/
structure Var where
  key : GoString
  value : GoString
  hasDefaultValue : Bool
deriving DecidableEq, Repr

/-- Go `(*Env).Getenv`. -/
def Env.Getenv (environ : Environ) (_me : Env) (key : GoString) : Var :=
  { key := key, value := os.Getenv environ key, hasDefaultValue := false }

/-- Go `(*Env).Errors`. -/
def Env.Errors (me : Env) : List errorString := me.errors

/-- Go `Var.DefaultValue`. -/
def Var.DefaultValue (me : Var) (defaultValue : GoString) : Var :=
  let me := if me.value = [] then { me with value := defaultValue } else me
  { me with hasDefaultValue := true }

/-- The record `fmt.Errorf("'%v' is empty, and no default value set.", key)`. -/
def missingValueError (key : GoString) : errorString :=
  ⟨lit "'" ++ key ++ lit "' is empty, and no default value set."⟩

/-- The record `fmt.Errorf("Error parsing '%v' as an int: %v", key, err)`. -/
def invalidIntError (Quote : GoString → GoString) (key : GoString)
    (err : strconv.NumError) : errorString :=
  ⟨lit "Error parsing '" ++ key ++ lit "' as an int: " ++ err.Error Quote⟩

/-- Go `Var.String`: the returned string and the registry after the call. -/
def Var.String (me : Var) (env : Env) : GoString × Env :=
  let env := if me.value = [] ∧ !me.hasDefaultValue then
      { env with errors := env.errors ++ [missingValueError me.key] }
    else env
  (me.value, env)

/-- Go `Var.Int`: the returned int and the registry after the call. -/
def Var.Int (Quote : GoString → GoString) (me : Var) (env : Env) : Int × Env :=
  let (value, env) := me.String env
  if value = [] then (0, env)
  else
    let (intValue, err) := strconv.Atoi value
    let env := match err with
      | some e => { env with errors := env.errors ++ [invalidIntError Quote me.key e] }
      | none => env
    (intValue, env)

/-- The environment of `testSetup` in `envy_test.go`: `STRKEY=ABC`,
`INTKEY=123`, every other variable unset. -/
def testSetup : Environ := fun key =>
  if key = lit "STRKEY" then some (lit "ABC")
  else if key = lit "INTKEY" then some (lit "123")
  else none

/-- `Quote` on the strings without a byte to escape: the string between
double quotes. Used to evaluate the operations on concrete inputs. -/
def plainQuote (s : GoString) : GoString := lit "\"" ++ s ++ lit "\""

/-- A call of one of the operations of the package through a registry, with
its receiver (for the methods of `Var`) and its arguments. -/
inductive Call where
  | Getenv (key : GoString)
  | DefaultValue (me : Var) (defaultValue : GoString)
  | String (me : Var)
  | Int (me : Var)
  | Errors

/-- What a call returns. -/
inductive Returned where
  | var (v : Var)
  | string (s : GoString)
  | int (n : Int)
  | errors (l : List errorString)
deriving DecidableEq, Repr

/-- The value a call returns and the registry after it. `Getenv`,
`DefaultValue` and `Errors` do not assign to `errors`; `String` and `Int` hand
back the registry they may have appended to. -/
def Call.run (environ : Environ) (Quote : GoString → GoString) : Call → Env → Returned × Env
  | .Getenv key, env => (.var (Env.Getenv environ env key), env)
  | .DefaultValue me defaultValue, env => (.var (me.DefaultValue defaultValue), env)
  | .String me, env => (.string (me.String env).1, (me.String env).2)
  | .Int me, env => (.int (me.Int Quote env).1, (me.Int Quote env).2)
  | .Errors, env => (.errors env.Errors, env)

/-- The registry after a sequence of calls, made one after the other. -/
def runAll (environ : Environ) (Quote : GoString → GoString) : List Call → Env → Env
  | [], env => env
  | c :: cs, env => runAll environ Quote cs (c.run environ Quote env).2

/-- The first non-empty string of a list of candidates, the empty string when
all of them are empty. -/
def firstNonEmpty : List GoString → GoString
  | [] => []
  | s :: rest => if s = [] then firstNonEmpty rest else s

end envy

/-! Decimal syntax, stated independently of the parser. -/

namespace strconv

/-- The byte is an ASCII digit `'0'`..`'9'`. -/
def isDigit (c : Fin 256) : Bool := decide (48 ≤ c.val ∧ c.val ≤ 57)

/-- Value of a run of digit bytes read in base 10 after the number `n`. -/
def accValue (n : Nat) (ds : List (Fin 256)) : Nat :=
  ds.foldl (fun a c => a * 10 + (c.val - 48)) n

/-- Value of a run of digit bytes read in base 10. -/
def digitsValue (ds : List (Fin 256)) : Nat := accValue 0 ds

/-- The string without its single leading `'+'` or `'-'`, if it has one. -/
def body : GoString → GoString
  | [] => []
  | c :: cs => if c = 43 ∨ c = 45 then cs else c :: cs

/-- The string starts with `'-'`. -/
def isNegative (s : GoString) : Bool := decide (s.head? = some 45)

/-- The string is an optional single leading `'+'` or `'-'` followed by one or
more ASCII digits. -/
def isDecimal (s : GoString) : Bool := !(body s).isEmpty && (body s).all isDigit

/-- The number a decimal string denotes. -/
def decimalValue (s : GoString) : Int :=
  if isNegative s then -(digitsValue (body s) : Int) else (digitsValue (body s) : Int)

/-- The digits in front of the first byte of the body that is not a digit. -/
def digitPrefix (s : GoString) : GoString := (body s).takeWhile isDigit

/-- The number is representable in the 64-bit signed `int`. -/
def fitsInt (i : Int) : Prop := -9223372036854775808 ≤ i ∧ i ≤ 9223372036854775807

instance (i : Int) : Decidable (fitsInt i) :=
  inferInstanceAs (Decidable (-9223372036854775808 ≤ i ∧ i ≤ 9223372036854775807))

/-- The canonical base-10 rendering of a natural number: its digits, most
significant first, without leading zeros (`"0"` for zero). -/
def natDecimal (m : Nat) : GoString :=
  if m = 0 then [48] else (Nat.digits 10 m).reverse.map (fun d => Fin.ofNat (48 + d))

/-- The canonical base-10 rendering of an integer (the output of
`strconv.Itoa`): a `'-'` for a negative number, then the rendering of its
absolute value. -/
def canonicalDecimal (n : Int) : GoString :=
  if n < 0 then 45 :: natDecimal n.natAbs else natDecimal n.natAbs

end strconv

/-! The parser. -/

namespace strconv

theorem accValue_cons (n : Nat) (c : Fin 256) (cs : List (Fin 256)) :
    accValue n (c :: cs) = accValue (n * 10 + (c.val - 48)) cs := rfl

theorem accValue_ge (cs : List (Fin 256)) : ∀ n, n ≤ accValue n cs := by
  induction cs with
  | nil => intro n; exact le_refl _
  | cons c cs ih =>
    intro n
    rw [accValue_cons]
    have := ih (n * 10 + (c.val - 48))
    omega

theorem accValue_lt (cs : List (Fin 256)) (h : cs.all isDigit = true) :
    ∀ n, accValue n cs < (n + 1) * 10 ^ cs.length := by
  induction cs with
  | nil => intro n; simp [accValue]
  | cons c cs ih =>
    intro n
    simp only [List.all_cons, Bool.and_eq_true] at h
    have hc : 48 ≤ c.val ∧ c.val ≤ 57 := by simpa [isDigit] using h.1
    rw [accValue_cons]
    have h1 := ih h.2 (n * 10 + (c.val - 48))
    have h2 : (n * 10 + (c.val - 48) + 1) ≤ (n + 1) * 10 := by omega
    calc accValue (n * 10 + (c.val - 48)) cs
        < (n * 10 + (c.val - 48) + 1) * 10 ^ cs.length := h1
      _ ≤ ((n + 1) * 10) * 10 ^ cs.length := Nat.mul_le_mul_right _ h2
      _ = (n + 1) * 10 ^ (c :: cs).length := by
          rw [List.length_cons, pow_succ]; ring

theorem wrap64_of_fits (i : Int) (h : fitsInt i) : wrap64 i = i := by
  unfold fitsInt at h
  unfold wrap64
  omega

theorem atoiLoop_digits (cs : List (Fin 256)) (h : cs.all isDigit = true) :
    ∀ n : Nat, accValue n cs < 9223372036854775808 →
      atoiLoop cs (n : Int) = some (accValue n cs : Int) := by
  induction cs with
  | nil => intro n _; rfl
  | cons c cs ih =>
    intro n hn
    simp only [List.all_cons, Bool.and_eq_true] at h
    have hc : 48 ≤ c.val ∧ c.val ≤ 57 := by simpa [isDigit] using h.1
    rw [accValue_cons] at hn ⊢
    have hge := accValue_ge cs (n * 10 + (c.val - 48))
    have hch : (c.val + 256 - 48) % 256 = c.val - 48 := by omega
    have hw : wrap64 ((n : Int) * 10 + ((c.val - 48 : Nat) : Int))
        = ((n * 10 + (c.val - 48) : Nat) : Int) := by
      rw [wrap64_of_fits]
      · push_cast; rfl
      · unfold fitsInt; omega
    simp only [atoiLoop, hch]
    rw [if_neg (by omega), hw]
    exact ih h.2 _ hn

theorem atoiLoop_nondigit (cs : List (Fin 256)) (h : cs.all isDigit = false) :
    ∀ n : Int, atoiLoop cs n = none := by
  induction cs with
  | nil => simp at h
  | cons c cs ih =>
    intro n
    simp only [atoiLoop]
    by_cases hc : isDigit c = true
    · have hcs : cs.all isDigit = false := by
        simpa [List.all_cons, hc] using h
      have hc' : 48 ≤ c.val ∧ c.val ≤ 57 := by simpa [isDigit] using hc
      rw [if_neg (by omega)]
      exact ih hcs _
    · have hc' : ¬ (48 ≤ c.val ∧ c.val ≤ 57) := by simpa [isDigit] using hc
      have := c.isLt
      rw [if_pos (by omega)]

end strconv

namespace strconv

theorem digitOf_digit (c : Fin 256) (h : isDigit c = true) :
    digitOf c = some (c.val - 48) ∧ c.val - 48 < 10 := by
  have hc : 48 ≤ c.val ∧ c.val ≤ 57 := by simpa [isDigit] using h
  refine ⟨?_, by omega⟩
  unfold digitOf
  rw [if_pos hc]

theorem digitOf_nondigit (c : Fin 256) (h : isDigit c = false) :
    digitOf c = none ∨ ∃ d, digitOf c = some d ∧ 10 ≤ d := by
  have hc : ¬ (48 ≤ c.val ∧ c.val ≤ 57) := by simpa [isDigit] using h
  unfold digitOf
  rw [if_neg hc]
  by_cases hl : 97 ≤ lower c ∧ lower c ≤ 122
  · rw [if_pos hl]
    exact Or.inr ⟨_, rfl, by omega⟩
  · rw [if_neg hl]
    exact Or.inl rfl

/-- The loop of `ParseUint` on a run of digits whose value fits `uint64`. -/
theorem parseUintLoop_digits (s0 : GoString) (cs : List (Fin 256))
    (h : cs.all isDigit = true) :
    ∀ n : Nat, accValue n cs < 18446744073709551616 →
      parseUintLoop s0 10 1844674407370955162 18446744073709551615 cs n
        = (accValue n cs, none) := by
  induction cs with
  | nil => intro n _; rfl
  | cons c cs ih =>
    intro n hn
    simp only [List.all_cons, Bool.and_eq_true] at h
    obtain ⟨hd, hd10⟩ := digitOf_digit c h.1
    rw [accValue_cons] at hn ⊢
    have hge := accValue_ge cs (n * 10 + (c.val - 48))
    simp only [parseUintLoop, hd]
    rw [if_neg (by omega), if_neg (by omega)]
    have h1 : n * 10 % 18446744073709551616 = n * 10 := Nat.mod_eq_of_lt (by omega)
    have h2 : (n * 10 + (c.val - 48)) % 18446744073709551616 = n * 10 + (c.val - 48) :=
      Nat.mod_eq_of_lt (by omega)
    simp only [h1, h2]
    rw [if_neg (by omega)]
    exact ih h.2 _ hn

/-- The loop of `ParseUint` on a run of digits whose value overflows `uint64`. -/
theorem parseUintLoop_overflow (s0 : GoString) (cs : List (Fin 256))
    (h : cs.all isDigit = true) :
    ∀ n : Nat, n < 18446744073709551616 → 18446744073709551616 ≤ accValue n cs →
      parseUintLoop s0 10 1844674407370955162 18446744073709551615 cs n
        = (18446744073709551615, some (rangeError fnParseUint s0)) := by
  induction cs with
  | nil => intro n hn hv; simp [accValue] at hv; omega
  | cons c cs ih =>
    intro n hn hv
    simp only [List.all_cons, Bool.and_eq_true] at h
    obtain ⟨hd, hd10⟩ := digitOf_digit c h.1
    rw [accValue_cons] at hv
    simp only [parseUintLoop, hd]
    rw [if_neg (by omega)]
    by_cases hcut : n ≥ 1844674407370955162
    · rw [if_pos hcut]
    · rw [if_neg hcut]
      have h1 : n * 10 % 18446744073709551616 = n * 10 := Nat.mod_eq_of_lt (by omega)
      simp only [h1]
      by_cases hov : n * 10 + (c.val - 48) < 18446744073709551616
      · have h2 : (n * 10 + (c.val - 48)) % 18446744073709551616 = n * 10 + (c.val - 48) :=
          Nat.mod_eq_of_lt hov
        simp only [h2]
        rw [if_neg (by omega)]
        exact ih h.2 _ hov hv
      · rw [if_pos (by omega)]

/-- The loop of `ParseUint` on bytes that are not all digits reports an error:
a syntax error with value 0 or a range error with the largest `uint64`. -/
theorem parseUintLoop_nondigit (s0 : GoString) (cs : List (Fin 256))
    (h : cs.all isDigit = false) :
    ∀ n : Nat,
      parseUintLoop s0 10 1844674407370955162 18446744073709551615 cs n
          = (0, some (syntaxError fnParseUint s0)) ∨
      parseUintLoop s0 10 1844674407370955162 18446744073709551615 cs n
          = (18446744073709551615, some (rangeError fnParseUint s0)) := by
  induction cs with
  | nil => simp at h
  | cons c cs ih =>
    intro n
    by_cases hc : isDigit c = true
    · have hcs : cs.all isDigit = false := by simpa [List.all_cons, hc] using h
      obtain ⟨hd, hd10⟩ := digitOf_digit c hc
      simp only [parseUintLoop, hd]
      rw [if_neg (by omega)]
      by_cases hcut : n ≥ 1844674407370955162
      · rw [if_pos hcut]; exact Or.inr rfl
      · rw [if_neg hcut]
        by_cases hov : (n * 10 % 18446744073709551616 + (c.val - 48)) % 18446744073709551616
            < n * 10 % 18446744073709551616 ∨
            (n * 10 % 18446744073709551616 + (c.val - 48)) % 18446744073709551616
              > 18446744073709551615
        · rw [if_pos hov]; exact Or.inr rfl
        · rw [if_neg hov]; exact ih hcs _
    · have hc' : isDigit c = false := by simpa using hc
      rcases digitOf_nondigit c hc' with hn | ⟨d, hd, hd10⟩
      · simp only [parseUintLoop, hn]; exact Or.inl trivial
      · simp only [parseUintLoop, hd]
        rw [if_pos (by omega)]; exact Or.inl rfl

theorem ParseUint_eq_loop (s : GoString) (h : s ≠ []) :
    ParseUint s = parseUintLoop s 10 1844674407370955162 18446744073709551615 s 0 := by
  unfold ParseUint
  rw [if_neg h]
  rfl

end strconv

namespace strconv

theorem strip_eq_body (s : GoString) :
    (if s.head? = some 43 then s.tail else if s.head? = some 45 then s.tail else s) = body s := by
  cases s with
  | nil => rfl
  | cons c cs =>
    simp only [List.head?_cons, Option.some.injEq, List.tail_cons, body]
    by_cases h1 : c = 43
    · simp [h1]
    · by_cases h2 : c = 45
      · simp [h2]
      · simp [h1, h2]

theorem cutoff_eval : 2 ^ (IntSize - 1) % 18446744073709551616 = 9223372036854775808 := by
  norm_num [IntSize, intSize]

theorem wrap64_max :
    wrap64 (((9223372036854775808 + 18446744073709551616 - 1) % 18446744073709551616 : Nat) : Int)
      = 9223372036854775807 := by
  decide

theorem wrap64_min : wrap64 (-(wrap64 ((9223372036854775808 : Nat) : Int))) = -9223372036854775808 := by
  decide

/-- `ParseInt` once `ParseUint` has returned without a syntax error. -/
theorem ParseInt_of_value (s : GoString) (hs : s ≠ []) (un : Nat) (err : Option NumError)
    (hu : ParseUint (body s) = (un, err)) (herr : ∀ e, err = some e → e.Err = Sentinel.ErrRange) :
    ParseInt s =
      if isNegative s = false ∧ un ≥ 9223372036854775808 then
        (9223372036854775807, some (rangeError fnParseInt s))
      else if isNegative s = true ∧ un > 9223372036854775808 then
        (-9223372036854775808, some (rangeError fnParseInt s))
      else (if isNegative s = true then wrap64 (-(wrap64 un)) else wrap64 un, none) := by
  unfold ParseInt
  rw [if_neg hs]
  simp only [strip_eq_body, hu, cutoff_eval, wrap64_max, wrap64_min]
  have hnone : (match err with
      | some e => if e.Err ≠ Sentinel.ErrRange then some e else none
      | none => none) = none := by
    cases err with
    | none => rfl
    | some e => simp [herr e rfl]
  rw [hnone]
  simp only [isNegative]
  have w1 : wrap64 9223372036854775807 = 9223372036854775807 := by decide
  by_cases hneg : s.head? = some 45 <;> simp [hneg, w1]

/-- `ParseInt` once `ParseUint` has returned a syntax error. -/
theorem ParseInt_of_syntax (s : GoString) (hs : s ≠ []) (un : Nat) (e : NumError)
    (hu : ParseUint (body s) = (un, some e)) (herr : e.Err = Sentinel.ErrSyntax) :
    ParseInt s = (0, some (syntaxError fnParseInt s)) := by
  unfold ParseInt
  rw [if_neg hs]
  simp only [strip_eq_body, hu, herr]
  simp [syntaxError, herr]

end strconv

namespace strconv

theorem bool_cases (b : Bool) : b = true ∨ b = false := by cases b <;> simp

theorem isDecimal_iff (s : GoString) :
    isDecimal s = true ↔ body s ≠ [] ∧ (body s).all isDigit = true := by
  unfold isDecimal
  cases body s <;> simp

theorem isDecimal_false_iff (s : GoString) :
    isDecimal s = false ↔ body s = [] ∨ (body s).all isDigit = false := by
  unfold isDecimal
  cases body s <;> simp

theorem not_isDecimal_nil : isDecimal [] = false := rfl

theorem ParseUint_body_digits (s : GoString) (hb : body s ≠ [])
    (hd : (body s).all isDigit = true) :
    ParseUint (body s) =
      if digitsValue (body s) < 18446744073709551616 then (digitsValue (body s), none)
      else (18446744073709551615, some (rangeError fnParseUint (body s))) := by
  rw [ParseUint_eq_loop _ hb]
  by_cases hv : digitsValue (body s) < 18446744073709551616
  · rw [if_pos hv]
    exact parseUintLoop_digits _ _ hd 0 hv
  · rw [if_neg hv]
    exact parseUintLoop_overflow _ _ hd 0 (by omega) (by unfold digitsValue at hv; omega)

theorem wrap64_neg_of_le (v : Nat) (h : v ≤ 9223372036854775808) :
    wrap64 (-(wrap64 (v : Int))) = -(v : Int) := by
  unfold wrap64
  omega

theorem wrap64_nat_of_lt (v : Nat) (h : v < 9223372036854775808) :
    wrap64 (v : Int) = (v : Int) := by
  unfold wrap64
  omega

/-- `ParseInt` on a decimal string: its value when it fits `int64`, the nearest
bound and a range error otherwise. -/
theorem ParseInt_decimal (s : GoString) (hd : isDecimal s = true) :
    ParseInt s =
      if 9223372036854775807 < decimalValue s then
        (9223372036854775807, some (rangeError fnParseInt s))
      else if decimalValue s < -9223372036854775808 then
        (-9223372036854775808, some (rangeError fnParseInt s))
      else (decimalValue s, none) := by
  have hs : s ≠ [] := by
    intro h; rw [h] at hd; simp [not_isDecimal_nil] at hd
  obtain ⟨hb, hall⟩ := (isDecimal_iff s).1 hd
  have hu := ParseUint_body_digits s hb hall
  unfold decimalValue
  by_cases hv : digitsValue (body s) < 18446744073709551616
  · rw [if_pos hv] at hu
    rw [ParseInt_of_value s hs _ _ hu (by simp)]
    rcases bool_cases (isNegative s) with hneg | hneg
    · simp only [hneg, Bool.true_eq_false, true_and, false_and, reduceIte]
      by_cases h1 : digitsValue (body s) > 9223372036854775808
      · rw [if_pos h1, if_neg (by omega), if_pos (by omega)]
      · rw [if_neg h1, if_neg (by omega), if_neg (by omega),
          wrap64_neg_of_le _ (by omega)]
    · simp only [hneg, Bool.false_eq_true, true_and, false_and, reduceIte]
      by_cases h1 : digitsValue (body s) ≥ 9223372036854775808
      · rw [if_pos h1, if_pos (by omega)]
      · rw [if_neg h1, if_neg (by omega), if_neg (by omega),
          wrap64_nat_of_lt _ (by omega)]
  · rw [if_neg hv] at hu
    rw [ParseInt_of_value s hs _ _ hu (by intro e he; cases he; rfl)]
    rcases bool_cases (isNegative s) with hneg | hneg
    · simp only [hneg, Bool.true_eq_false, true_and, false_and, reduceIte]
      rw [if_pos (by omega), if_neg (by omega), if_pos (by omega)]
    · simp only [hneg, Bool.false_eq_true, true_and, false_and, reduceIte]
      rw [if_pos (by omega), if_pos (by omega)]

/-- `ParseInt` on a string that is not decimal reports an error: a syntax
error with value 0, or a range error with one of the bounds when the digits
read before the offending byte already overflow. -/
theorem ParseInt_nondecimal (s : GoString) (hd : isDecimal s = false) :
    ParseInt s = (0, some (syntaxError fnParseInt s)) ∨
    ParseInt s = (9223372036854775807, some (rangeError fnParseInt s)) ∨
    ParseInt s = (-9223372036854775808, some (rangeError fnParseInt s)) := by
  by_cases hs : s = []
  · left; rw [hs]; rfl
  · rcases (isDecimal_false_iff s).1 hd with hb | hall
    · left
      refine ParseInt_of_syntax s hs 0 (syntaxError fnParseUint []) ?_ rfl
      rw [hb]; rfl
    · have hb : body s ≠ [] := by
        intro h; rw [h] at hall; simp at hall
      rcases parseUintLoop_nondigit (body s) (body s) hall 0 with h | h
      · left
        refine ParseInt_of_syntax s hs 0 (syntaxError fnParseUint (body s)) ?_ rfl
        rw [ParseUint_eq_loop _ hb]; exact h
      · right
        rw [← ParseUint_eq_loop _ hb] at h
        rw [ParseInt_of_value s hs _ _ h (by intro e he; cases he; rfl)]
        rcases bool_cases (isNegative s) with hneg | hneg
        · right
          simp only [hneg, Bool.true_eq_false, true_and, false_and, reduceIte]
          rw [if_pos (by omega)]
        · left
          simp only [hneg, Bool.false_eq_true, true_and, false_and, reduceIte]
          rw [if_pos (by omega)]

end strconv

namespace strconv

/-- The fast path of `Atoi`, taken by the strings of 1 to 18 bytes. -/
theorem Atoi_fast (s : GoString) (h0 : 0 < s.length) (h19 : s.length < 19) :
    Atoi s =
      if body s = [] then (0, some (syntaxError fnAtoi s))
      else match atoiLoop (body s) 0 with
        | none => (0, some (syntaxError fnAtoi s))
        | some n => (if isNegative s = true then wrap64 (-n) else n, none) := by
  unfold Atoi
  rw [if_pos (Or.inr ⟨rfl, h0, h19⟩)]
  cases s with
  | nil => simp at h0
  | cons c cs =>
    simp only [List.head?_cons, Option.some.injEq, List.tail_cons, body, isNegative]
    by_cases h1 : c = 45
    · subst h1
      cases cs with
      | nil => simp
      | cons d ds => simp
    · by_cases h2 : c = 43
      · subst h2
        cases cs with
        | nil => simp
        | cons d ds => simp
      · simp [h1, h2]

/-- The slow path of `Atoi`, taken by the empty string and by the strings of
19 bytes or more. -/
theorem Atoi_slow (s : GoString) (h : ¬ (0 < s.length ∧ s.length < 19)) :
    Atoi s = (wrap64 (ParseInt s).1,
      (ParseInt s).2.map (fun nerr => { nerr with Func := fnAtoi })) := by
  unfold Atoi
  rw [if_neg]
  rintro (⟨h32, _⟩ | ⟨_, h'⟩)
  · simp [intSize] at h32
  · exact h h'

theorem digitsValue_lt (cs : List (Fin 256)) (h : cs.all isDigit = true) :
    digitsValue cs < 10 ^ cs.length := by
  have := accValue_lt cs h 0
  simpa [digitsValue] using this

theorem body_length_le (s : GoString) : (body s).length ≤ s.length := by
  cases s with
  | nil => simp [body]
  | cons c cs =>
    simp only [body]
    split <;> simp

/-- `Atoi` on a decimal string: its value when it fits `int`, the nearest
bound and a range error otherwise. -/
theorem Atoi_decimal (s : GoString) (hd : isDecimal s = true) :
    Atoi s =
      if 9223372036854775807 < decimalValue s then
        (9223372036854775807, some (rangeError fnAtoi s))
      else if decimalValue s < -9223372036854775808 then
        (-9223372036854775808, some (rangeError fnAtoi s))
      else (decimalValue s, none) := by
  obtain ⟨hb, hall⟩ := (isDecimal_iff s).1 hd
  by_cases hlen : 0 < s.length ∧ s.length < 19
  · have hlt := digitsValue_lt _ hall
    have hbl := body_length_le s
    have hpow : 10 ^ (body s).length ≤ 10 ^ 18 :=
      Nat.pow_le_pow_right (by norm_num) (by omega)
    have hsmall : digitsValue (body s) < 1000000000000000000 := by
      have : (10 : Nat) ^ 18 = 1000000000000000000 := by norm_num
      omega
    have hloop := atoiLoop_digits _ hall 0 (by unfold digitsValue at hsmall; omega)
    rw [Atoi_fast s hlen.1 hlen.2, if_neg hb]
    simp only [Nat.cast_zero] at hloop
    rw [hloop]
    unfold decimalValue
    change ((if isNegative s = true then wrap64 (-(digitsValue (body s) : Int))
      else (digitsValue (body s) : Int)), none) = _
    rcases bool_cases (isNegative s) with hneg | hneg
    · simp only [hneg, reduceIte]
      rw [if_neg (by omega), if_neg (by omega),
        wrap64_of_fits _ (by unfold fitsInt; omega)]
    · simp only [hneg, Bool.false_eq_true, reduceIte]
      rw [if_neg (by omega), if_neg (by omega)]
  · rw [Atoi_slow s hlen, ParseInt_decimal s hd]
    by_cases h1 : 9223372036854775807 < decimalValue s
    · simp only [if_pos h1]
      simp [rangeError, wrap64]
    · simp only [if_neg h1]
      by_cases h2 : decimalValue s < -9223372036854775808
      · simp only [if_pos h2]
        simp [rangeError, wrap64]
      · simp only [if_neg h2]
        simp only [Option.map_none']
        rw [wrap64_of_fits _ (by unfold fitsInt; omega)]

/-- `Atoi` on a string that is not decimal reports an error: a syntax error
with value 0, or a range error with one of the bounds when the digits read
before the offending byte already overflow. -/
theorem Atoi_nondecimal (s : GoString) (hd : isDecimal s = false) :
    Atoi s = (0, some (syntaxError fnAtoi s)) ∨
    Atoi s = (9223372036854775807, some (rangeError fnAtoi s)) ∨
    Atoi s = (-9223372036854775808, some (rangeError fnAtoi s)) := by
  by_cases hlen : 0 < s.length ∧ s.length < 19
  · left
    rw [Atoi_fast s hlen.1 hlen.2]
    rcases (isDecimal_false_iff s).1 hd with hb | hall
    · rw [if_pos hb]
    · have hb : body s ≠ [] := by
        intro h; rw [h] at hall; simp at hall
      rw [if_neg hb, atoiLoop_nondigit _ hall]
  · rw [Atoi_slow s hlen]
    rcases ParseInt_nondecimal s hd with h | h | h
    · left; rw [h]; simp [syntaxError, wrap64]
    · right; left; rw [h]; simp [rangeError, wrap64]
    · right; right; rw [h]; simp [rangeError, wrap64]

end strconv

namespace strconv

theorem digitByte_val (d : Nat) (h : d < 10) : ((Fin.ofNat (48 + d) : Fin 256)).val = 48 + d := by
  show (48 + d) % 256 = 48 + d
  omega

theorem accValue_append (n : Nat) (xs ys : List (Fin 256)) :
    accValue n (xs ++ ys) = accValue (accValue n xs) ys := by
  unfold accValue
  rw [List.foldl_append]

theorem digitsValue_render (L : List Nat) (h : ∀ d ∈ L, d < 10) :
    digitsValue (L.reverse.map (fun d => (Fin.ofNat (48 + d) : Fin 256))) = Nat.ofDigits 10 L := by
  induction L with
  | nil => rfl
  | cons d L ih =>
    have hd : d < 10 := h d (List.mem_cons_self _ _)
    have hL : ∀ x ∈ L, x < 10 := fun x hx => h x (List.mem_cons_of_mem _ hx)
    have ih' := ih hL
    unfold digitsValue at ih' ⊢
    rw [List.reverse_cons, List.map_append, accValue_append, ih', Nat.ofDigits_cons]
    simp only [List.map_cons, List.map_nil, accValue, List.foldl_cons, List.foldl_nil]
    rw [digitByte_val d hd]
    omega

theorem all_isDigit_render (L : List Nat) (h : ∀ d ∈ L, d < 10) :
    (L.map (fun d => (Fin.ofNat (48 + d) : Fin 256))).all isDigit = true := by
  rw [List.all_eq_true]
  intro c hc
  obtain ⟨d, hd, rfl⟩ := List.mem_map.1 hc
  have := digitByte_val d (h d hd)
  have hd10 := h d hd
  simp only [isDigit, this, decide_eq_true_eq]
  omega

theorem natDecimal_ne_nil (m : Nat) : natDecimal m ≠ [] := by
  unfold natDecimal
  split
  · simp
  · rename_i h
    simp [Nat.digits_ne_nil_iff_ne_zero, h]

theorem natDecimal_all (m : Nat) : (natDecimal m).all isDigit = true := by
  unfold natDecimal
  split
  · decide
  · have h : ∀ d ∈ (Nat.digits 10 m).reverse, d < 10 := by
      intro d hd
      exact Nat.digits_lt_base (by norm_num) (List.mem_reverse.1 hd)
    exact all_isDigit_render _ h

theorem natDecimal_value (m : Nat) : digitsValue (natDecimal m) = m := by
  unfold natDecimal
  split
  · rename_i h; rw [h]; rfl
  · rw [digitsValue_render _ (fun d hd => Nat.digits_lt_base (by norm_num) hd),
      Nat.ofDigits_digits]

theorem body_of_digits (s : GoString) (hne : s ≠ []) (h : s.all isDigit = true) :
    body s = s ∧ isNegative s = false := by
  cases s with
  | nil => exact absurd rfl hne
  | cons c cs =>
    simp only [List.all_cons, Bool.and_eq_true] at h
    have hc : 48 ≤ c.val ∧ c.val ≤ 57 := by simpa [isDigit] using h.1
    have h43 : c ≠ 43 := by intro h'; rw [h'] at hc; exact absurd hc (by decide)
    have h45 : c ≠ 45 := by intro h'; rw [h'] at hc; exact absurd hc (by decide)
    simp [body, isNegative, h43, h45]

/-- The canonical rendering of an integer is a decimal string. -/
theorem isDecimal_canonicalDecimal (n : Int) : isDecimal (canonicalDecimal n) = true := by
  have hb := body_of_digits _ (natDecimal_ne_nil n.natAbs) (natDecimal_all n.natAbs)
  rw [isDecimal_iff]
  unfold canonicalDecimal
  split
  · simp only [body]
    simp [natDecimal_ne_nil, natDecimal_all]
  · rw [hb.1]
    exact ⟨natDecimal_ne_nil _, natDecimal_all _⟩

/-- The canonical rendering of an integer denotes that integer. -/
theorem decimalValue_canonicalDecimal (n : Int) : decimalValue (canonicalDecimal n) = n := by
  have hb := body_of_digits _ (natDecimal_ne_nil n.natAbs) (natDecimal_all n.natAbs)
  unfold decimalValue canonicalDecimal
  split
  · rename_i hn
    simp only [body, isNegative]
    simp only [List.head?_cons, decide_True, or_true, reduceIte, natDecimal_value]
    omega
  · rename_i hn
    rw [hb.1, hb.2, natDecimal_value]
    simp
    omega

end strconv

namespace strconv

/-- Every error of `Atoi` names `Atoi` and carries the whole input string. -/
theorem Atoi_error_fields (s : GoString) (e : NumError) (h : (Atoi s).2 = some e) :
    e.Func = fnAtoi ∧ e.Num = s := by
  rcases bool_cases (isDecimal s) with hd | hd
  · rw [Atoi_decimal s hd] at h
    split_ifs at h <;> simp at h <;> subst h <;> exact ⟨rfl, rfl⟩
  · rcases Atoi_nondecimal s hd with h' | h' | h' <;> rw [h'] at h <;> simp at h <;>
      subst h <;> exact ⟨rfl, rfl⟩

/-- A syntax error of `Atoi` comes with the value 0. -/
theorem Atoi_syntax_value (s : GoString) (e : NumError) (h : (Atoi s).2 = some e)
    (hs : e.Err = Sentinel.ErrSyntax) : (Atoi s).1 = 0 := by
  rcases bool_cases (isDecimal s) with hd | hd
  · rw [Atoi_decimal s hd] at h
    split_ifs at h <;> simp at h <;> subst h <;> simp [rangeError] at hs
  · rcases Atoi_nondecimal s hd with h' | h' | h'
    · rw [h']
    · rw [h'] at h; simp at h; subst h; simp [rangeError] at hs
    · rw [h'] at h; simp at h; subst h; simp [rangeError] at hs

/-- A range error of `Atoi` comes with one of the two bounds of `int`. -/
theorem Atoi_range_value (s : GoString) (e : NumError) (h : (Atoi s).2 = some e)
    (hr : e.Err = Sentinel.ErrRange) :
    (Atoi s).1 = 9223372036854775807 ∨ (Atoi s).1 = -9223372036854775808 := by
  rcases bool_cases (isDecimal s) with hd | hd
  · rw [Atoi_decimal s hd] at h ⊢
    split_ifs at h ⊢
    · exact Or.inl rfl
    · exact Or.inr rfl
  · rcases Atoi_nondecimal s hd with h' | h' | h'
    · rw [h'] at h; simp at h; subst h; simp [syntaxError] at hr
    · rw [h']; exact Or.inl rfl
    · rw [h']; exact Or.inr rfl

/-- `Atoi` reports no error exactly on the decimal strings whose value fits. -/
theorem Atoi_ok_iff (s : GoString) :
    (Atoi s).2 = none ↔ (isDecimal s = true ∧ fitsInt (decimalValue s)) := by
  rcases bool_cases (isDecimal s) with hd | hd
  · rw [Atoi_decimal s hd]
    unfold fitsInt
    split_ifs with h1 h2
    · simp; omega
    · simp; omega
    · simp [hd]; omega
  · rcases Atoi_nondecimal s hd with h' | h' | h' <;> rw [h'] <;> simp [hd]

/-- A string with a byte that is neither a digit nor a sign is not decimal. -/
theorem not_isDecimal_of_mem (s : GoString) (c : Fin 256) (hc : c ∈ s)
    (hd : isDigit c = false) (h43 : c ≠ 43) (h45 : c ≠ 45) : isDecimal s = false := by
  rw [isDecimal_false_iff]
  right
  have hmem : c ∈ body s := by
    cases s with
    | nil => simp at hc
    | cons a as =>
      simp only [body]
      split
      · rename_i ha
        rcases List.mem_cons.1 hc with h | h
        · rcases ha with ha | ha
          · exact absurd (h.trans ha) h43
          · exact absurd (h.trans ha) h45
        · exact h
      · exact hc
  rw [List.all_eq_false]
  exact ⟨c, hmem, by simp [hd]⟩

end strconv

namespace envy

theorem String_value (v : Var) (env : Env) : (v.String env).1 = v.value := rfl

theorem String_of_nonempty (v : Var) (env : Env) (h : v.value ≠ []) :
    v.String env = (v.value, env) := by
  simp [Var.String, h]

theorem String_of_default (v : Var) (env : Env) (h : v.hasDefaultValue = true) :
    v.String env = (v.value, env) := by
  simp [Var.String, h]

theorem String_of_missing (v : Var) (env : Env) (h : v.value = [])
    (hd : v.hasDefaultValue = false) :
    v.String env = ([], { errors := env.errors ++ [missingValueError v.key] }) := by
  simp [Var.String, h, hd]

theorem Int_of_empty (Quote : GoString → GoString) (v : Var) (env : Env) (h : v.value = []) :
    v.Int Quote env = (0, (v.String env).2) := by
  simp [Var.Int, Var.String, h]

theorem Int_of_nonempty (Quote : GoString → GoString) (v : Var) (env : Env)
    (h : v.value ≠ []) :
    v.Int Quote env = ((strconv.Atoi v.value).1,
      match (strconv.Atoi v.value).2 with
      | some e => { errors := env.errors ++ [invalidIntError Quote v.key e] }
      | none => env) := by
  simp only [Var.Int, String_of_nonempty v env h, if_neg h]

theorem Int_of_parse_error (Quote : GoString → GoString) (v : Var) (env : Env)
    (h : v.value ≠ []) (e : strconv.NumError) (he : (strconv.Atoi v.value).2 = some e) :
    v.Int Quote env = ((strconv.Atoi v.value).1,
      { errors := env.errors ++ [invalidIntError Quote v.key e] }) := by
  rw [Int_of_nonempty Quote v env h, he]

theorem Int_of_parse_ok (Quote : GoString → GoString) (v : Var) (env : Env)
    (h : v.value ≠ []) (he : (strconv.Atoi v.value).2 = none) :
    v.Int Quote env = ((strconv.Atoi v.value).1, env) := by
  rw [Int_of_nonempty Quote v env h, he]

theorem append_singleton_ne (l : List errorString) (x : errorString) : l ++ [x] ≠ l := by
  intro h
  have := congrArg List.length h
  simp at this

theorem Getenv_present (environ : Environ) (env : Env) (key v : GoString)
    (h : environ key = some v) :
    Env.Getenv environ env key = { key := key, value := v, hasDefaultValue := false } := by
  simp [Env.Getenv, os.Getenv, h]

theorem Getenv_absent (environ : Environ) (env : Env) (key : GoString)
    (h : environ key = none) :
    Env.Getenv environ env key = { key := key, value := [], hasDefaultValue := false } := by
  simp [Env.Getenv, os.Getenv, h]

theorem canonicalDecimal_ne_nil (n : Int) : strconv.canonicalDecimal n ≠ [] := by
  intro h
  have := strconv.isDecimal_canonicalDecimal n
  rw [h] at this
  simp [strconv.not_isDecimal_nil] at this

theorem Int_of_canonical (Quote : GoString → GoString) (n : Int) (hn : strconv.fitsInt n)
    (v : Var) (env : Env) (hv : v.value = strconv.canonicalDecimal n) :
    v.Int Quote env = (n, env) := by
  have hne : v.value ≠ [] := by rw [hv]; exact canonicalDecimal_ne_nil n
  have hA := strconv.Atoi_decimal _ (strconv.isDecimal_canonicalDecimal n)
  rw [strconv.decimalValue_canonicalDecimal] at hA
  unfold strconv.fitsInt at hn
  rw [if_neg (by omega), if_neg (by omega)] at hA
  rw [Int_of_parse_ok Quote v env hne (by rw [hv, hA]), hv, hA]

end envy

/-! The value returned with an error on a string that is not decimal. -/

namespace strconv

/-- The loop of `ParseUint` on bytes that are not all digits, by the value of
the digits in front of the first offending byte: a syntax error when that
value fits `uint64`, a range error when it does not. -/
theorem parseUintLoop_offending (s0 : GoString) (cs : List (Fin 256))
    (h : cs.all isDigit = false) :
    ∀ n : Nat,
      (accValue n (cs.takeWhile isDigit) < 18446744073709551616 →
        parseUintLoop s0 10 1844674407370955162 18446744073709551615 cs n
          = (0, some (syntaxError fnParseUint s0))) ∧
      (n < 18446744073709551616 →
        18446744073709551616 ≤ accValue n (cs.takeWhile isDigit) →
        parseUintLoop s0 10 1844674407370955162 18446744073709551615 cs n
          = (18446744073709551615, some (rangeError fnParseUint s0))) := by
  induction cs with
  | nil => simp at h
  | cons c cs ih =>
    intro n
    by_cases hc : isDigit c = true
    · have hcs : cs.all isDigit = false := by simpa [List.all_cons, hc] using h
      obtain ⟨hd, hd10⟩ := digitOf_digit c hc
      rw [List.takeWhile_cons_of_pos hc, accValue_cons]
      have hge := accValue_ge (cs.takeWhile isDigit) (n * 10 + (c.val - 48))
      constructor
      · intro hv
        simp only [parseUintLoop, hd]
        rw [if_neg (by omega), if_neg (by omega)]
        have h1 : n * 10 % 18446744073709551616 = n * 10 := Nat.mod_eq_of_lt (by omega)
        have h2 : (n * 10 + (c.val - 48)) % 18446744073709551616 = n * 10 + (c.val - 48) :=
          Nat.mod_eq_of_lt (by omega)
        simp only [h1, h2]
        rw [if_neg (by omega)]
        exact (ih hcs _).1 hv
      · intro hn hv
        simp only [parseUintLoop, hd]
        rw [if_neg (by omega)]
        by_cases hcut : n ≥ 1844674407370955162
        · rw [if_pos hcut]
        · rw [if_neg hcut]
          have h1 : n * 10 % 18446744073709551616 = n * 10 := Nat.mod_eq_of_lt (by omega)
          simp only [h1]
          by_cases hov : n * 10 + (c.val - 48) < 18446744073709551616
          · have h2 : (n * 10 + (c.val - 48)) % 18446744073709551616
                = n * 10 + (c.val - 48) := Nat.mod_eq_of_lt hov
            simp only [h2]
            rw [if_neg (by omega)]
            exact (ih hcs _).2 hov hv
          · rw [if_pos (by omega)]
    · have hc' : isDigit c = false := by simpa using hc
      rw [List.takeWhile_cons_of_neg hc]
      constructor
      · intro _
        rcases digitOf_nondigit c hc' with hn | ⟨d, hd, hd10⟩
        · simp only [parseUintLoop, hn]
        · simp only [parseUintLoop, hd]
          rw [if_pos (by omega)]
      · intro hn hv
        simp only [accValue, List.foldl_nil] at hv
        omega

theorem digitPrefix_lt (s : GoString) (h : s.length < 19) :
    digitsValue (digitPrefix s) < 18446744073709551616 := by
  have hall : (digitPrefix s).all isDigit = true := List.all_takeWhile
  have hlt := digitsValue_lt _ hall
  have hlen : (digitPrefix s).length ≤ 18 := by
    have h1 : (digitPrefix s).length ≤ (body s).length :=
      (List.takeWhile_sublist isDigit).length_le
    have h2 := body_length_le s
    omega
  have hpow : 10 ^ (digitPrefix s).length ≤ 10 ^ 18 :=
    Nat.pow_le_pow_right (by norm_num) hlen
  have : (10 : Nat) ^ 18 = 1000000000000000000 := by norm_num
  omega

/-- `ParseInt` on a string that is not decimal: a syntax error with value 0,
unless the digits in front of the first offending byte overflow `uint64`, when
it is a range error with the bound on the side of the sign. -/
theorem ParseInt_nondecimal_exact (s : GoString) (hd : isDecimal s = false) :
    ParseInt s =
      if digitsValue (digitPrefix s) < 18446744073709551616 then
        (0, some (syntaxError fnParseInt s))
      else if isNegative s = true then
        (-9223372036854775808, some (rangeError fnParseInt s))
      else (9223372036854775807, some (rangeError fnParseInt s)) := by
  by_cases hs : s = []
  · rw [hs]; rfl
  · rcases (isDecimal_false_iff s).1 hd with hb | hall
    · have hp : digitPrefix s = [] := by unfold digitPrefix; rw [hb]; rfl
      rw [hp, if_pos (by decide)]
      refine ParseInt_of_syntax s hs 0 (syntaxError fnParseUint []) ?_ rfl
      rw [hb]; rfl
    · have hb : body s ≠ [] := by
        intro h; rw [h] at hall; simp at hall
      have hloop := parseUintLoop_offending (body s) (body s) hall 0
      by_cases hv : digitsValue (digitPrefix s) < 18446744073709551616
      · rw [if_pos hv]
        refine ParseInt_of_syntax s hs 0 (syntaxError fnParseUint (body s)) ?_ rfl
        rw [ParseUint_eq_loop _ hb]
        exact hloop.1 hv
      · rw [if_neg hv]
        have hu := hloop.2 (by omega) (by unfold digitsValue digitPrefix at hv; omega)
        rw [← ParseUint_eq_loop _ hb] at hu
        rw [ParseInt_of_value s hs _ _ hu (by intro e he; cases he; rfl)]
        rcases bool_cases (isNegative s) with hneg | hneg
        · simp only [hneg, Bool.true_eq_false, true_and, false_and, reduceIte]
          rw [if_pos (by omega)]
        · simp only [hneg, Bool.false_eq_true, true_and, false_and, reduceIte]
          rw [if_pos (by omega)]

/-- `Atoi` on a string that is not decimal: a syntax error with value 0, unless
the digits in front of the first offending byte overflow `uint64`, when it is a
range error with the bound of `int` on the side of the sign. -/
theorem Atoi_nondecimal_exact (s : GoString) (hd : isDecimal s = false) :
    Atoi s =
      if digitsValue (digitPrefix s) < 18446744073709551616 then
        (0, some (syntaxError fnAtoi s))
      else if isNegative s = true then
        (-9223372036854775808, some (rangeError fnAtoi s))
      else (9223372036854775807, some (rangeError fnAtoi s)) := by
  by_cases hlen : 0 < s.length ∧ s.length < 19
  · rw [if_pos (digitPrefix_lt s hlen.2), Atoi_fast s hlen.1 hlen.2]
    rcases (isDecimal_false_iff s).1 hd with hb | hall
    · rw [if_pos hb]
    · have hb : body s ≠ [] := by
        intro h; rw [h] at hall; simp at hall
      rw [if_neg hb, atoiLoop_nondigit _ hall]
  · rw [Atoi_slow s hlen, ParseInt_nondecimal_exact s hd]
    by_cases hv : digitsValue (digitPrefix s) < 18446744073709551616
    · simp only [if_pos hv]
      simp [syntaxError, wrap64]
    · simp only [if_neg hv]
      rcases bool_cases (isNegative s) with hneg | hneg
      · simp only [hneg, reduceIte]
        simp [rangeError, wrap64]
      · simp only [hneg, Bool.false_eq_true, reduceIte]
        simp [rangeError, wrap64]

end strconv

/-! The claims. -/

namespace envy

/-- C1: `String` appends a record to the registry's error list if and only if
the value is empty and no default was set; then it appends exactly one record
at the end, the missing-value error naming the key (message
`'<key>' is empty, and no default value set.`), and returns the empty string;
in every other case it returns the value and leaves the registry as it was. -/
theorem String_records_missing_value (v : Var) (env : Env) :
    ((v.String env).2.errors ≠ env.errors ↔ (v.value = [] ∧ v.hasDefaultValue = false)) ∧
    (v.String env =
      if v.value = [] ∧ v.hasDefaultValue = false then
        ([], { errors := env.errors ++ [missingValueError v.key] })
      else (v.value, env)) ∧
    (missingValueError v.key).s
      = lit "'" ++ v.key ++ lit "' is empty, and no default value set." := by
  refine ⟨?_, ?_, rfl⟩
  · by_cases h : v.value = [] ∧ v.hasDefaultValue = false
    · rw [String_of_missing v env h.1 h.2]
      simp only [h, and_self, iff_true]
      exact append_singleton_ne _ _
    · have hs : v.String env = (v.value, env) := by
        by_cases hv : v.value = []
        · exact String_of_default v env (by
            cases hd : v.hasDefaultValue
            · exact absurd ⟨hv, hd⟩ h
            · rfl)
        · exact String_of_nonempty v env hv
      rw [hs]
      simp [h]
  · by_cases h : v.value = [] ∧ v.hasDefaultValue = false
    · rw [if_pos h, String_of_missing v env h.1 h.2]
    · rw [if_neg h]
      by_cases hv : v.value = []
      · exact String_of_default v env (by
          cases hd : v.hasDefaultValue
          · exact absurd ⟨hv, hd⟩ h
          · rfl)
      · exact String_of_nonempty v env hv

/-- C2: for a key whose stored value is a non-empty string `v`,
`Getenv(key).String()` returns exactly `v` and leaves the registry unchanged. -/
theorem Getenv_String_present (environ : Environ) (env : Env) (key v : GoString)
    (h : environ key = some v) (hv : v ≠ []) :
    (Env.Getenv environ env key).String env = (v, env) := by
  rw [Getenv_present environ env key v h]
  exact String_of_nonempty _ env hv

theorem Getenv_String_present_witness :
    testSetup (lit "STRKEY") = some (lit "ABC") ∧ lit "ABC" ≠ [] ∧
    (Env.Getenv testSetup NewEnv (lit "STRKEY")).String NewEnv = (lit "ABC", NewEnv) :=
  ⟨by decide, by decide,
    Getenv_String_present testSetup NewEnv (lit "STRKEY") (lit "ABC") (by decide) (by decide)⟩

/-- C3: for a key that is absent from the store or stored as the empty string
and a non-empty default `D`, `Getenv(key).DefaultValue(D).String()` returns
exactly `D` and leaves the registry unchanged. -/
theorem Getenv_DefaultValue_String_absent (environ : Environ) (env : Env)
    (key D : GoString) (h : environ key = none ∨ environ key = some [])
    (_hD : D ≠ []) :
    ((Env.Getenv environ env key).DefaultValue D).String env = (D, env) := by
  have hg : Env.Getenv environ env key
      = { key := key, value := [], hasDefaultValue := false } := by
    rcases h with h | h
    · exact Getenv_absent environ env key h
    · exact Getenv_present environ env key [] h
  rw [hg]
  exact String_of_default _ env rfl

theorem Getenv_DefaultValue_String_absent_witness :
    (testSetup (lit "NONEXISTENT_KEY!") = none ∨ testSetup (lit "NONEXISTENT_KEY!") = some []) ∧
    lit "XYZ" ≠ [] ∧
    ((Env.Getenv testSetup NewEnv (lit "NONEXISTENT_KEY!")).DefaultValue (lit "XYZ")).String NewEnv
      = (lit "XYZ", NewEnv) :=
  ⟨by decide, by decide,
    Getenv_DefaultValue_String_absent testSetup NewEnv (lit "NONEXISTENT_KEY!") (lit "XYZ")
      (by decide) (by decide)⟩

/-- C4: for a key absent from the store with no default attached,
`Getenv(key).Int()` returns 0 and appends exactly one record to the error
list, the missing-value error for that key. -/
theorem Getenv_Int_absent (Quote : GoString → GoString) (environ : Environ) (env : Env)
    (key : GoString) (h : environ key = none) :
    (Env.Getenv environ env key).Int Quote env
      = (0, { errors := env.errors ++ [missingValueError key] }) ∧
    ((Env.Getenv environ env key).Int Quote env).2.errors.length = env.errors.length + 1 := by
  rw [Getenv_absent environ env key h, Int_of_empty Quote _ env rfl,
    String_of_missing _ env rfl rfl]
  exact ⟨rfl, by simp⟩

theorem Getenv_Int_absent_witness :
    testSetup (lit "NONEXISTENT_KEY!") = none ∧
    (Env.Getenv testSetup NewEnv (lit "NONEXISTENT_KEY!")).Int plainQuote NewEnv
      = (0, { errors := NewEnv.errors ++ [missingValueError (lit "NONEXISTENT_KEY!")] }) ∧
    ((Env.Getenv testSetup NewEnv (lit "NONEXISTENT_KEY!")).Int plainQuote NewEnv).2.errors.length
      = NewEnv.errors.length + 1 :=
  ⟨by decide,
    Getenv_Int_absent plainQuote testSetup NewEnv (lit "NONEXISTENT_KEY!") (by decide)⟩

/-- C5: for every integer `n` representable in the 64-bit signed `int`, a `Var`
whose value is the canonical base-10 rendering of `n`, whether it was read
from the store or substituted by `DefaultValue` for an absent key, makes `Int`
return exactly `n` and leave the registry unchanged. -/
theorem Int_canonical_roundtrip (Quote : GoString → GoString) (n : Int)
    (hn : strconv.fitsInt n) (env : Env) :
    (∀ v : Var, v.value = strconv.canonicalDecimal n → v.Int Quote env = (n, env)) ∧
    (∀ (environ : Environ) (key : GoString),
      environ key = some (strconv.canonicalDecimal n) →
        (Env.Getenv environ env key).Int Quote env = (n, env)) ∧
    (∀ (environ : Environ) (key : GoString), environ key = none →
        ((Env.Getenv environ env key).DefaultValue (strconv.canonicalDecimal n)).Int Quote env
          = (n, env)) := by
  refine ⟨fun v hv => Int_of_canonical Quote n hn v env hv, ?_, ?_⟩
  · intro environ key h
    exact Int_of_canonical Quote n hn _ env (by rw [Getenv_present environ env key _ h])
  · intro environ key h
    exact Int_of_canonical Quote n hn _ env (by
      rw [Getenv_absent environ env key h]; rfl)

theorem Int_canonical_roundtrip_witness :
    strconv.fitsInt (-9223372036854775808) ∧
    (∀ v : Var, v.value = strconv.canonicalDecimal (-9223372036854775808) →
      v.Int plainQuote NewEnv = (-9223372036854775808, NewEnv)) :=
  ⟨by decide, (Int_canonical_roundtrip plainQuote (-9223372036854775808) (by decide) NewEnv).1⟩

end envy

namespace envy

/-- C6, as stated, fails: the value `"9223372036854775808"` is non-empty and
fails parsing (it is too large for `int`), and `Int` returns
9223372036854775807, not 0. -/
theorem Int_range_failure_nonzero :
    (⟨lit "K", lit "9223372036854775808", false⟩ : Var).value ≠ [] ∧
    (strconv.Atoi (⟨lit "K", lit "9223372036854775808", false⟩ : Var).value).2
      = some (strconv.rangeError strconv.fnAtoi (lit "9223372036854775808")) ∧
    ((⟨lit "K", lit "9223372036854775808", false⟩ : Var).Int plainQuote NewEnv).1
      = 9223372036854775807 ∧
    ((⟨lit "K", lit "9223372036854775808", false⟩ : Var).Int plainQuote NewEnv).1 ≠ 0 := by
  decide

/-- C6, amended: for every `Var` whose value is a non-empty string on which the
parser reports a syntax error, `Int` returns 0; this is the case of every
non-empty string shorter than 19 bytes that is not an optional sign followed
by one or more digits. When the parser reports a range error, `Int` returns
the bound the parser hands back, 9223372036854775807 or -9223372036854775808. -/
theorem Int_syntax_failure_zero (Quote : GoString → GoString) (v : Var) (env : Env)
    (hv : v.value ≠ []) :
    (∀ e : strconv.NumError, (strconv.Atoi v.value).2 = some e →
      e.Err = strconv.Sentinel.ErrSyntax → (v.Int Quote env).1 = 0) ∧
    (strconv.isDecimal v.value = false → v.value.length < 19 →
      (strconv.Atoi v.value).2 = some (strconv.syntaxError strconv.fnAtoi v.value) ∧
      (v.Int Quote env).1 = 0) ∧
    (∀ e : strconv.NumError, (strconv.Atoi v.value).2 = some e →
      e.Err = strconv.Sentinel.ErrRange →
        (v.Int Quote env).1 = 9223372036854775807 ∨
        (v.Int Quote env).1 = -9223372036854775808) := by
  refine ⟨?_, ?_, ?_⟩
  · intro e he hs
    rw [Int_of_nonempty Quote v env hv]
    exact strconv.Atoi_syntax_value v.value e he hs
  rotate_left
  · intro e he hr
    rw [Int_of_nonempty Quote v env hv]
    exact strconv.Atoi_range_value v.value e he hr
  · intro hd hlen
    have hpos : 0 < v.value.length := List.length_pos.2 hv
    have hA : strconv.Atoi v.value = (0, some (strconv.syntaxError strconv.fnAtoi v.value)) := by
      rw [strconv.Atoi_fast _ hpos hlen]
      rcases (strconv.isDecimal_false_iff _).1 hd with hb | hall
      · rw [if_pos hb]
      · have hb : strconv.body v.value ≠ [] := by
          intro h; rw [h] at hall; simp at hall
        rw [if_neg hb, strconv.atoiLoop_nondigit _ hall]
    rw [Int_of_nonempty Quote v env hv, hA]
    exact ⟨rfl, rfl⟩

theorem Int_syntax_failure_zero_witness :
    (⟨lit "K", lit "12.34", true⟩ : Var).value ≠ [] ∧
    strconv.isDecimal (lit "12.34") = false ∧
    ((⟨lit "K", lit "12.34", true⟩ : Var).Int plainQuote NewEnv).1 = 0 :=
  ⟨by decide, by decide,
    ((Int_syntax_failure_zero plainQuote ⟨lit "K", lit "12.34", true⟩ NewEnv (by decide)).2.1
      (by decide) (by decide)).2⟩

/-- C7: for every `Var` whose value is a non-empty string that fails base-10
integer parsing with the error `e`, `Int` appends exactly one record to the end
of the error list and leaves the earlier records unchanged; the record is the
invalid-int error: its message is `Error parsing '<key>' as an int: ` followed
by the message of the parser's error, which names `Atoi` and carries the quoted
offending string. -/
theorem Int_records_invalid_int (Quote : GoString → GoString) (v : Var) (env : Env)
    (e : strconv.NumError) (hv : v.value ≠ []) (he : (strconv.Atoi v.value).2 = some e) :
    (v.Int Quote env).2.errors = env.errors ++ [invalidIntError Quote v.key e] ∧
    (v.Int Quote env).2.errors.length = env.errors.length + 1 ∧
    (v.Int Quote env).2.errors.take env.errors.length = env.errors ∧
    e.Num = v.value ∧
    (invalidIntError Quote v.key e).s
      = lit "Error parsing '" ++ v.key ++ lit "' as an int: " ++ e.Error Quote ∧
    e.Error Quote = lit "strconv." ++ lit "Atoi" ++ lit ": " ++ lit "parsing "
      ++ Quote v.value ++ lit ": " ++ e.Err.Error := by
  obtain ⟨hF, hN⟩ := strconv.Atoi_error_fields v.value e he
  rw [Int_of_parse_error Quote v env hv e he]
  refine ⟨rfl, by simp, by simp, hN, rfl, ?_⟩
  unfold strconv.NumError.Error
  rw [hF, hN]
  rfl

theorem Int_records_invalid_int_witness :
    (⟨lit "K", lit "abc", true⟩ : Var).value ≠ [] ∧
    (strconv.Atoi (⟨lit "K", lit "abc", true⟩ : Var).value).2
      = some (strconv.syntaxError strconv.fnAtoi (lit "abc")) ∧
    ((⟨lit "K", lit "abc", true⟩ : Var).Int plainQuote NewEnv).2.errors
      = NewEnv.errors ++ [invalidIntError plainQuote (lit "K")
          (strconv.syntaxError strconv.fnAtoi (lit "abc"))] :=
  ⟨by decide, by decide,
    (Int_records_invalid_int plainQuote ⟨lit "K", lit "abc", true⟩ NewEnv
      (strconv.syntaxError strconv.fnAtoi (lit "abc")) (by decide) (by decide)).1⟩

end envy

namespace envy

/-- C8, as stated, fails: the value `"99999999999999999999x"` contains a
letter, and `Int` returns for it 9223372036854775807, the value it returns for
the digits in front of the letter alone, not 0. -/
theorem Int_overflowing_digits_before_offending_byte :
    (∃ c ∈ lit "99999999999999999999x", strconv.isDigit c = false ∧ c ≠ 43 ∧ c ≠ 45) ∧
    (Var.Int plainQuote ⟨lit "K", lit "99999999999999999999x", false⟩ NewEnv).1
      = 9223372036854775807 ∧
    (Var.Int plainQuote ⟨lit "K", lit "99999999999999999999x", false⟩ NewEnv).1
      = (Var.Int plainQuote ⟨lit "K", lit "99999999999999999999", false⟩ NewEnv).1 ∧
    (Var.Int plainQuote ⟨lit "K", lit "99999999999999999999x", false⟩ NewEnv).1 ≠ 0 := by
  decide

/-- C8, amended: `Int` accepts decimal integers only. For every non-empty value
`s`, `Int` appends no error if and only if `s` is an optional single leading
`'+'` or `'-'` followed by one or more ASCII digits and the number it denotes
fits the 64-bit signed `int`; every value containing a byte that is neither a
digit nor a sign (a `'.'`, a letter, whitespace, an underscore) is not such a
string and records the invalid-int error. On every value that is not such a
string `Int` returns 0 with the parser's syntax error, unless the digits in
front of the first offending byte denote a number of 2^64 or more: then it
returns the bound of `int` on the side of the sign with the parser's range
error. It returns 0 on every such value shorter than 19 bytes, and `"12.34"`,
`"abc"`, `" 1"`, `"1_000"`, `"0x10"` are syntax errors with value 0. -/
theorem Int_accepts_decimal_only (Quote : GoString → GoString) (v : Var) (env : Env)
    (hv : v.value ≠ []) :
    ((v.Int Quote env).2.errors = env.errors ↔
      (strconv.isDecimal v.value = true ∧ strconv.fitsInt (strconv.decimalValue v.value))) ∧
    ((∃ c ∈ v.value, strconv.isDigit c = false ∧ c ≠ 43 ∧ c ≠ 45) →
      strconv.isDecimal v.value = false ∧
      ∃ e : strconv.NumError, e.Num = v.value ∧
        (v.Int Quote env).2.errors = env.errors ++ [invalidIntError Quote v.key e]) ∧
    (strconv.isDecimal v.value = false →
      v.Int Quote env =
        if strconv.digitsValue (strconv.digitPrefix v.value) < 18446744073709551616 then
          (0, { errors := env.errors ++
            [invalidIntError Quote v.key (strconv.syntaxError strconv.fnAtoi v.value)] })
        else if strconv.isNegative v.value = true then
          (-9223372036854775808, { errors := env.errors ++
            [invalidIntError Quote v.key (strconv.rangeError strconv.fnAtoi v.value)] })
        else
          (9223372036854775807, { errors := env.errors ++
            [invalidIntError Quote v.key (strconv.rangeError strconv.fnAtoi v.value)] })) ∧
    (strconv.isDecimal v.value = false → v.value.length < 19 → (v.Int Quote env).1 = 0) ∧
    (∀ s ∈ [lit "12.34", lit "abc", lit " 1", lit "1_000", lit "0x10"],
      ∀ key : GoString,
        (Var.Int Quote ⟨key, s, true⟩ env).1 = 0 ∧
        (Var.Int Quote ⟨key, s, true⟩ env).2.errors = env.errors ++
          [invalidIntError Quote key (strconv.syntaxError strconv.fnAtoi s)]) := by
  have hexact : strconv.isDecimal v.value = false →
      v.Int Quote env =
        if strconv.digitsValue (strconv.digitPrefix v.value) < 18446744073709551616 then
          (0, { errors := env.errors ++
            [invalidIntError Quote v.key (strconv.syntaxError strconv.fnAtoi v.value)] })
        else if strconv.isNegative v.value = true then
          (-9223372036854775808, { errors := env.errors ++
            [invalidIntError Quote v.key (strconv.rangeError strconv.fnAtoi v.value)] })
        else
          (9223372036854775807, { errors := env.errors ++
            [invalidIntError Quote v.key (strconv.rangeError strconv.fnAtoi v.value)] }) := by
    intro hd
    have hA := strconv.Atoi_nondecimal_exact v.value hd
    rw [Int_of_nonempty Quote v env hv, hA]
    split_ifs <;> rfl
  refine ⟨?_, ?_, hexact, ?_, ?_⟩
  · rw [← strconv.Atoi_ok_iff, Int_of_nonempty Quote v env hv]
    cases hA : (strconv.Atoi v.value).2 with
    | none => simp
    | some e =>
      simp only [reduceCtorEq, iff_false]
      exact append_singleton_ne _ _
  · rintro ⟨c, hc, hd, h43, h45⟩
    have hnd := strconv.not_isDecimal_of_mem v.value c hc hd h43 h45
    have hnone : (strconv.Atoi v.value).2 ≠ none := by
      intro h
      have := (strconv.Atoi_ok_iff v.value).1 h
      rw [hnd] at this
      exact absurd this.1 (by simp)
    obtain ⟨e, he⟩ := Option.ne_none_iff_exists'.1 hnone
    refine ⟨hnd, e, (strconv.Atoi_error_fields v.value e he).2, ?_⟩
    rw [Int_of_parse_error Quote v env hv e he]
  · intro hd hlen
    rw [hexact hd, if_pos (strconv.digitPrefix_lt v.value hlen)]
  · intro s hs key
    have hA : s ≠ [] ∧
        strconv.Atoi s = (0, some (strconv.syntaxError strconv.fnAtoi s)) := by
      simp only [List.mem_cons, List.mem_singleton, List.not_mem_nil, or_false] at hs
      rcases hs with h | h | h | h | h <;> subst h <;> decide
    have hI := Int_of_parse_error Quote ⟨key, s, true⟩ env hA.1
      (strconv.syntaxError strconv.fnAtoi s) (by rw [hA.2])
    rw [hI]
    exact ⟨by rw [hA.2], rfl⟩

theorem Int_accepts_decimal_only_witness :
    (⟨lit "K", lit "1_000", false⟩ : Var).value ≠ [] ∧
    (((⟨lit "K", lit "1_000", false⟩ : Var).Int plainQuote NewEnv).2.errors = NewEnv.errors ↔
      (strconv.isDecimal (⟨lit "K", lit "1_000", false⟩ : Var).value = true ∧
        strconv.fitsInt (strconv.decimalValue (⟨lit "K", lit "1_000", false⟩ : Var).value))) ∧
    ((⟨lit "K", lit "1_000", false⟩ : Var).Int plainQuote NewEnv).1 = 0 :=
  ⟨by decide,
    (Int_accepts_decimal_only plainQuote ⟨lit "K", lit "1_000", false⟩ NewEnv (by decide)).1,
    (Int_accepts_decimal_only plainQuote ⟨lit "K", lit "1_000", false⟩ NewEnv
      (by decide)).2.2.2.1 (by decide) (by decide)⟩

/-- C9: error order matches call order. From a registry whose error list is
`E`, with `A` absent from the store and `B` stored with a non-empty value that
fails parsing with the error `e`, calling `Getenv(A).String()` (or
`Getenv(A).Int()`) and then `Getenv(B).Int()` leaves the error list equal to
`E` followed by the missing-value error for `A` and then the invalid-int error
for `B`. -/
theorem Errors_in_call_order (Quote : GoString → GoString) (environ : Environ) (env : Env)
    (A B vB : GoString) (e : strconv.NumError) (hA : environ A = none)
    (hB : environ B = some vB) (hne : vB ≠ []) (he : (strconv.Atoi vB).2 = some e) :
    (((Env.Getenv environ ((Env.Getenv environ env A).String env).2 B).Int Quote
        ((Env.Getenv environ env A).String env).2).2).Errors
      = env.Errors ++ [missingValueError A, invalidIntError Quote B e] ∧
    (((Env.Getenv environ ((Env.Getenv environ env A).Int Quote env).2 B).Int Quote
        ((Env.Getenv environ env A).Int Quote env).2).2).Errors
      = env.Errors ++ [missingValueError A, invalidIntError Quote B e] := by
  have hS : (Env.Getenv environ env A).String env
      = ([], { errors := env.errors ++ [missingValueError A] }) := by
    rw [Getenv_absent environ env A hA]
    exact String_of_missing _ env rfl rfl
  have hI : (Env.Getenv environ env A).Int Quote env
      = (0, { errors := env.errors ++ [missingValueError A] }) := by
    rw [Getenv_absent environ env A hA, Int_of_empty Quote _ env rfl,
      String_of_missing _ env rfl rfl]
  have hBint : ∀ env1 : Env, ((Env.Getenv environ env1 B).Int Quote env1).2.Errors
      = env1.errors ++ [invalidIntError Quote B e] := by
    intro env1
    rw [Getenv_present environ env1 B vB hB,
      Int_of_parse_error Quote _ env1 hne e he]
    rfl
  rw [hS, hI]
  simp only [hBint]
  simp [Env.Errors]

theorem Errors_in_call_order_witness :
    testSetup (lit "NONEXISTENT_KEY!") = none ∧ testSetup (lit "STRKEY") = some (lit "ABC") ∧
    lit "ABC" ≠ [] ∧
    (strconv.Atoi (lit "ABC")).2 = some (strconv.syntaxError strconv.fnAtoi (lit "ABC")) ∧
    (((Env.Getenv testSetup
        ((Env.Getenv testSetup NewEnv (lit "NONEXISTENT_KEY!")).String NewEnv).2
          (lit "STRKEY")).Int plainQuote
        ((Env.Getenv testSetup NewEnv (lit "NONEXISTENT_KEY!")).String NewEnv).2).2).Errors
      = NewEnv.Errors ++ [missingValueError (lit "NONEXISTENT_KEY!"),
          invalidIntError plainQuote (lit "STRKEY")
            (strconv.syntaxError strconv.fnAtoi (lit "ABC"))] :=
  ⟨by decide, by decide, by decide, by decide,
    (Errors_in_call_order plainQuote testSetup NewEnv (lit "NONEXISTENT_KEY!") (lit "STRKEY")
      (lit "ABC") (strconv.syntaxError strconv.fnAtoi (lit "ABC"))
      (by decide) (by decide) (by decide) (by decide)).1⟩

/-- C10: for every `Var` whose value is non-empty and all defaults `D1`, `D2`,
`DefaultValue(D1)` returns a `Var` with the same key and value and the
has-default flag set, `DefaultValue(D1).DefaultValue(D2)` still carries the
original value, and `Getenv(key).DefaultValue(D).String()` returns the stored
value, not `D`, when the stored value is non-empty. -/
theorem DefaultValue_keeps_nonempty_value (v : Var) (D1 D2 : GoString) (hv : v.value ≠ []) :
    (v.DefaultValue D1).key = v.key ∧
    (v.DefaultValue D1).value = v.value ∧
    (v.DefaultValue D1).hasDefaultValue = true ∧
    ((v.DefaultValue D1).DefaultValue D2).value = v.value ∧
    (∀ (environ : Environ) (env : Env) (key stored D : GoString),
      environ key = some stored → stored ≠ [] →
        ((Env.Getenv environ env key).DefaultValue D).String env = (stored, env)) := by
  have h1 : v.DefaultValue D1 = { v with hasDefaultValue := true } := by
    simp [Var.DefaultValue, hv]
  refine ⟨by rw [h1], by rw [h1], by rw [h1], ?_, ?_⟩
  · rw [h1]
    simp [Var.DefaultValue, hv]
  · intro environ env key stored D h hs
    rw [Getenv_present environ env key _ h]
    simp [Var.DefaultValue, hs, Var.String]

theorem DefaultValue_keeps_nonempty_value_witness :
    (⟨lit "STRKEY", lit "ABC", false⟩ : Var).value ≠ [] ∧
    ((⟨lit "STRKEY", lit "ABC", false⟩ : Var).DefaultValue (lit "XYZ")).value = lit "ABC" ∧
    (((⟨lit "STRKEY", lit "ABC", false⟩ : Var).DefaultValue (lit "XYZ")).DefaultValue
      (lit "UVW")).value = lit "ABC" :=
  ⟨by decide,
    (DefaultValue_keeps_nonempty_value ⟨lit "STRKEY", lit "ABC", false⟩ (lit "XYZ") (lit "UVW")
      (by decide)).2.1,
    (DefaultValue_keeps_nonempty_value ⟨lit "STRKEY", lit "ABC", false⟩ (lit "XYZ") (lit "UVW")
      (by decide)).2.2.2.1⟩

end envy

/-! Accumulation of the error records. -/

namespace envy

/-- The records one call of `Int` appends, from the fields of the `Var`. -/
theorem Int_errors_eq (Quote : GoString → GoString) (v : Var) (env : Env) :
    (v.Int Quote env).2.errors = env.errors ++
      (if v.value = [] then
        (if v.hasDefaultValue = true then [] else [missingValueError v.key])
      else
        match (strconv.Atoi v.value).2 with
        | some e => [invalidIntError Quote v.key e]
        | none => []) := by
  by_cases hv : v.value = []
  · rw [if_pos hv, Int_of_empty Quote v env hv]
    cases hd : v.hasDefaultValue
    · rw [String_of_missing v env hv hd]; simp
    · rw [String_of_default v env hd]; simp
  · rw [if_neg hv, Int_of_nonempty Quote v env hv]
    cases hA : (strconv.Atoi v.value).2 <;> simp

/-- The records one call of `String` appends, from the fields of the `Var`. -/
theorem String_errors_eq (v : Var) (env : Env) :
    (v.String env).2.errors = env.errors ++
      (if v.value = [] ∧ v.hasDefaultValue = false then [missingValueError v.key] else []) := by
  by_cases h : v.value = [] ∧ v.hasDefaultValue = false
  · rw [if_pos h, String_of_missing v env h.1 h.2]
  · rw [if_neg h]
    by_cases hv : v.value = []
    · rw [String_of_default v env (by
        cases hd : v.hasDefaultValue
        · exact absurd ⟨hv, hd⟩ h
        · rfl)]
      simp
    · rw [String_of_nonempty v env hv]; simp

/-- Every call extends the error list of the registry at its end. -/
theorem run_errors_extends (environ : Environ) (Quote : GoString → GoString) (c : Call)
    (env : Env) : ∃ t, (c.run environ Quote env).2.errors = env.errors ++ t := by
  cases c with
  | Getenv key => exact ⟨[], by simp [Call.run]⟩
  | DefaultValue me d => exact ⟨[], by simp [Call.run]⟩
  | String me => exact ⟨_, String_errors_eq me env⟩
  | Int me => exact ⟨_, Int_errors_eq Quote me env⟩
  | Errors => exact ⟨[], by simp [Call.run]⟩

/-- Every sequence of calls extends the error list of the registry at its end. -/
theorem runAll_errors_extends (environ : Environ) (Quote : GoString → GoString)
    (cs : List Call) : ∀ env : Env, ∃ t, (runAll environ Quote cs env).errors = env.errors ++ t := by
  induction cs with
  | nil => intro env; exact ⟨[], by simp [runAll]⟩
  | cons c cs ih =>
    intro env
    obtain ⟨t1, h1⟩ := run_errors_extends environ Quote c env
    obtain ⟨t2, h2⟩ := ih (c.run environ Quote env).2
    refine ⟨t1 ++ t2, ?_⟩
    simp only [runAll]
    rw [h2, h1, List.append_assoc]

end envy

namespace envy

/-- C11: errors are never deduplicated or coalesced. For every key, performing
the same failing read twice through one registry adds the same record twice,
so the error list grows by exactly 2: twice `Getenv(key).String()` or twice
`Getenv(key).Int()` when the key is absent from the store, twice
`Getenv(key).Int()` when the key is stored with a non-empty value that fails
parsing. -/
theorem Errors_not_deduplicated (Quote : GoString → GoString) (environ : Environ) (env : Env)
    (key : GoString) :
    (environ key = none →
      (((Env.Getenv environ ((Env.Getenv environ env key).String env).2 key).String
          ((Env.Getenv environ env key).String env).2).2.errors
        = env.errors ++ [missingValueError key, missingValueError key]) ∧
      (((Env.Getenv environ ((Env.Getenv environ env key).String env).2 key).String
          ((Env.Getenv environ env key).String env).2).2.errors.length
        = env.errors.length + 2) ∧
      (((Env.Getenv environ ((Env.Getenv environ env key).Int Quote env).2 key).Int Quote
          ((Env.Getenv environ env key).Int Quote env).2).2.errors
        = env.errors ++ [missingValueError key, missingValueError key]) ∧
      (((Env.Getenv environ ((Env.Getenv environ env key).Int Quote env).2 key).Int Quote
          ((Env.Getenv environ env key).Int Quote env).2).2.errors.length
        = env.errors.length + 2)) ∧
    (∀ (stored : GoString) (e : strconv.NumError), environ key = some stored → stored ≠ [] →
      (strconv.Atoi stored).2 = some e →
      (((Env.Getenv environ ((Env.Getenv environ env key).Int Quote env).2 key).Int Quote
          ((Env.Getenv environ env key).Int Quote env).2).2.errors
        = env.errors ++ [invalidIntError Quote key e, invalidIntError Quote key e]) ∧
      (((Env.Getenv environ ((Env.Getenv environ env key).Int Quote env).2 key).Int Quote
          ((Env.Getenv environ env key).Int Quote env).2).2.errors.length
        = env.errors.length + 2)) := by
  constructor
  · intro hA
    have hS : ∀ env1 : Env, ((Env.Getenv environ env1 key).String env1).2.errors
        = env1.errors ++ [missingValueError key] := by
      intro env1
      rw [Getenv_absent environ env1 key hA, String_of_missing _ env1 rfl rfl]
    have hI : ∀ env1 : Env, ((Env.Getenv environ env1 key).Int Quote env1).2.errors
        = env1.errors ++ [missingValueError key] := by
      intro env1
      rw [Getenv_absent environ env1 key hA, Int_of_empty Quote _ env1 rfl,
        String_of_missing _ env1 rfl rfl]
    have h1 := hS ((Env.Getenv environ env key).String env).2
    have h2 := hI ((Env.Getenv environ env key).Int Quote env).2
    rw [hS env] at h1
    rw [hI env] at h2
    rw [h1, h2]
    simp
  · intro stored e hB hne he
    have hBI : ∀ env1 : Env, ((Env.Getenv environ env1 key).Int Quote env1).2.errors
        = env1.errors ++ [invalidIntError Quote key e] := by
      intro env1
      rw [Getenv_present environ env1 key stored hB, Int_of_parse_error Quote _ env1 hne e he]
    have h3 := hBI ((Env.Getenv environ env key).Int Quote env).2
    rw [hBI env] at h3
    rw [h3]
    simp

theorem Errors_not_deduplicated_witness :
    (fun _ => none : Environ) (lit "PORT") = none ∧
    (((Env.Getenv (fun _ => none) ((Env.Getenv (fun _ => none) NewEnv (lit "PORT")).String
          NewEnv).2 (lit "PORT")).String
        ((Env.Getenv (fun _ => none) NewEnv (lit "PORT")).String NewEnv).2).2.errors
      = NewEnv.errors ++ [missingValueError (lit "PORT"), missingValueError (lit "PORT")]) ∧
    (((Env.Getenv testSetup ((Env.Getenv testSetup NewEnv (lit "STRKEY")).Int plainQuote
          NewEnv).2 (lit "STRKEY")).Int plainQuote
        ((Env.Getenv testSetup NewEnv (lit "STRKEY")).Int plainQuote NewEnv).2).2.errors.length
      = NewEnv.errors.length + 2) :=
  ⟨rfl,
    ((Errors_not_deduplicated plainQuote (fun _ => none) NewEnv (lit "PORT")).1 rfl).1,
    ((Errors_not_deduplicated plainQuote testSetup NewEnv (lit "STRKEY")).2 (lit "ABC")
      (strconv.syntaxError strconv.fnAtoi (lit "ABC")) (by decide) (by decide) (by decide)).2⟩

/-- C12: the error list only grows. For every registry state and every call of
an operation of the package (`Getenv`, `DefaultValue`, `String`, `Int`,
`Errors`) with any arguments, the error list before the call is a prefix of
the error list after it, and so it is after every sequence of calls: no
operation removes, reorders or rewrites an existing record. -/
theorem Errors_only_grow (environ : Environ) (Quote : GoString → GoString) (env : Env) :
    (∀ c : Call, env.errors <+: (c.run environ Quote env).2.errors ∧
      (c.run environ Quote env).2.errors.take env.errors.length = env.errors) ∧
    (∀ cs : List Call, env.errors <+: (runAll environ Quote cs env).errors ∧
      (runAll environ Quote cs env).errors.take env.errors.length = env.errors) := by
  constructor
  · intro c
    obtain ⟨t, ht⟩ := run_errors_extends environ Quote c env
    rw [ht]
    exact ⟨⟨t, rfl⟩, by simp⟩
  · intro cs
    obtain ⟨t, ht⟩ := runAll_errors_extends environ Quote cs env
    rw [ht]
    exact ⟨⟨t, rfl⟩, by simp⟩

/-- C13: lookup and default-setting record nothing. A registry returned by
`NewEnv` has an empty error list; for every registry state, key and default,
`Getenv(key)` and `DefaultValue(default)` leave the registry exactly as it
was, whether or not the key is in the store; `Getenv` returns a `Var` with that
key, the stored value (the empty string when absent) and the has-default flag
false. -/
theorem Getenv_DefaultValue_record_nothing (environ : Environ) (Quote : GoString → GoString)
    (env : Env) (key defaultValue : GoString) (me : Var) :
    NewEnv.errors = [] ∧ NewEnv.Errors = [] ∧
    ((Call.Getenv key).run environ Quote env).2 = env ∧
    ((Call.DefaultValue me defaultValue).run environ Quote env).2 = env ∧
    ((Call.Getenv key).run environ Quote env).1 = Returned.var (Env.Getenv environ env key) ∧
    (Env.Getenv environ env key).key = key ∧
    (Env.Getenv environ env key).hasDefaultValue = false ∧
    (∀ stored : GoString, environ key = some stored →
      (Env.Getenv environ env key).value = stored) ∧
    (environ key = none → (Env.Getenv environ env key).value = []) := by
  refine ⟨rfl, rfl, rfl, rfl, rfl, rfl, rfl, ?_, ?_⟩
  · intro stored h
    rw [Getenv_present environ env key stored h]
  · intro h
    rw [Getenv_absent environ env key h]

end envy

namespace envy

/-- C14: for every `Var` whose value is an optional sign followed by ASCII
digits denoting a number greater than 2^63-1 (respectively less than -2^63),
`Int` returns the clamped bound 9223372036854775807 (respectively
-9223372036854775808) that the parser hands back with its range error, and
appends exactly one record, the invalid-int error for that range error. -/
theorem Int_out_of_range_clamped (Quote : GoString → GoString) (v : Var) (env : Env)
    (hd : strconv.isDecimal v.value = true) :
    (9223372036854775807 < strconv.decimalValue v.value →
      v.Int Quote env = (9223372036854775807,
        { errors := env.errors ++
            [invalidIntError Quote v.key (strconv.rangeError strconv.fnAtoi v.value)] })) ∧
    (strconv.decimalValue v.value < -9223372036854775808 →
      v.Int Quote env = (-9223372036854775808,
        { errors := env.errors ++
            [invalidIntError Quote v.key (strconv.rangeError strconv.fnAtoi v.value)] })) := by
  have hne : v.value ≠ [] := by
    intro h
    rw [h] at hd
    simp [strconv.not_isDecimal_nil] at hd
  have hA := strconv.Atoi_decimal v.value hd
  constructor
  · intro h
    rw [if_pos h] at hA
    rw [Int_of_parse_error Quote v env hne _ (by rw [hA]), hA]
  · intro h
    rw [if_neg (by omega), if_pos h] at hA
    rw [Int_of_parse_error Quote v env hne _ (by rw [hA]), hA]

theorem Int_out_of_range_clamped_witness :
    strconv.isDecimal (lit "-9223372036854775809") = true ∧
    strconv.decimalValue (lit "-9223372036854775809") < -9223372036854775808 ∧
    Var.Int plainQuote ⟨lit "K", lit "-9223372036854775809", false⟩ NewEnv
      = (-9223372036854775808,
        { errors := NewEnv.errors ++ [invalidIntError plainQuote (lit "K")
            (strconv.rangeError strconv.fnAtoi (lit "-9223372036854775809"))] }) :=
  ⟨by decide, by decide,
    (Int_out_of_range_clamped plainQuote ⟨lit "K", lit "-9223372036854775809", false⟩ NewEnv
      (by decide)).2 (by decide)⟩

/-- C15: an empty default silences the missing-value check. For every key
absent from the store or stored as the empty string,
`Getenv(key).DefaultValue("").String()` returns the empty string,
`Getenv(key).DefaultValue("").Int()` returns 0, and neither call changes the
registry. -/
theorem Empty_default_silences_missing_value (Quote : GoString → GoString)
    (environ : Environ) (env : Env) (key : GoString)
    (h : environ key = none ∨ environ key = some []) :
    ((Env.Getenv environ env key).DefaultValue []).String env = ([], env) ∧
    ((Env.Getenv environ env key).DefaultValue []).Int Quote env = (0, env) := by
  have hg : Env.Getenv environ env key
      = { key := key, value := [], hasDefaultValue := false } := by
    rcases h with h | h
    · exact Getenv_absent environ env key h
    · exact Getenv_present environ env key [] h
  rw [hg]
  constructor
  · exact String_of_default _ env rfl
  · rw [Int_of_empty Quote _ env rfl]
    exact congrArg (Prod.mk 0) (congrArg Prod.snd (String_of_default _ env rfl))

theorem Empty_default_silences_missing_value_witness :
    (testSetup (lit "NONEXISTENT_KEY!") = none ∨ testSetup (lit "NONEXISTENT_KEY!") = some []) ∧
    ((Env.Getenv testSetup NewEnv (lit "NONEXISTENT_KEY!")).DefaultValue []).String NewEnv
      = ([], NewEnv) ∧
    ((Env.Getenv testSetup NewEnv (lit "NONEXISTENT_KEY!")).DefaultValue []).Int plainQuote NewEnv
      = (0, NewEnv) :=
  ⟨by decide,
    Empty_default_silences_missing_value plainQuote testSetup NewEnv (lit "NONEXISTENT_KEY!")
      (by decide)⟩

/-- C16: chained defaults resolve to the first non-empty candidate. For every
`Var` `v` and all strings `D1`, `D2`, the value of
`v.DefaultValue(D1).DefaultValue(D2)` is the first non-empty string among the
value of `v`, `D1`, `D2` (the empty string if all three are empty);
`v.DefaultValue(D1).DefaultValue(D2)` equals `v.DefaultValue(D1)` whenever `D1`
is non-empty, and an empty `D1` on an empty value lets `D2` take effect. -/
theorem DefaultValue_chain_first_nonempty (v : Var) (D1 D2 : GoString) :
    ((v.DefaultValue D1).DefaultValue D2).value = firstNonEmpty [v.value, D1, D2] ∧
    ((v.DefaultValue D1).DefaultValue D2).key = v.key ∧
    ((v.DefaultValue D1).DefaultValue D2).hasDefaultValue = true ∧
    (D1 ≠ [] → (v.DefaultValue D1).DefaultValue D2 = v.DefaultValue D1) ∧
    (v.value = [] → ((v.DefaultValue []).DefaultValue D2).value = D2) := by
  refine ⟨?_, ?_, ?_, ?_, ?_⟩
  · by_cases hv : v.value = []
    · by_cases h1 : D1 = []
      · by_cases h2 : D2 = [] <;> simp [Var.DefaultValue, firstNonEmpty, hv, h1, h2]
      · simp [Var.DefaultValue, firstNonEmpty, hv, h1]
    · simp [Var.DefaultValue, firstNonEmpty, hv]
  · by_cases hv : v.value = []
    · by_cases h1 : D1 = [] <;> simp [Var.DefaultValue, hv, h1]
    · simp [Var.DefaultValue, hv]
  · simp [Var.DefaultValue]
  · intro h1
    by_cases hv : v.value = []
    · simp [Var.DefaultValue, hv, h1]
    · simp [Var.DefaultValue, hv]
  · intro hv
    simp [Var.DefaultValue, hv]

/-- C17: every single call of `Int` appends at most one record to the error
list, for every `Var` and every registry state: nothing or the missing-value
error when the value is empty, nothing or the invalid-int error when it is not,
never both. -/
theorem Int_appends_at_most_one (Quote : GoString → GoString) (v : Var) (env : Env) :
    ((v.Int Quote env).2.errors = env.errors ∨
      (v.value = [] ∧ (v.Int Quote env).2.errors = env.errors ++ [missingValueError v.key]) ∨
      (v.value ≠ [] ∧ ∃ e : strconv.NumError, (strconv.Atoi v.value).2 = some e ∧
        (v.Int Quote env).2.errors = env.errors ++ [invalidIntError Quote v.key e])) ∧
    (v.Int Quote env).2.errors.length ≤ env.errors.length + 1 ∧
    (v.Int Quote env).2.errors.take env.errors.length = env.errors := by
  have h := Int_errors_eq Quote v env
  by_cases hv : v.value = []
  · rw [if_pos hv] at h
    cases hd : v.hasDefaultValue
    · rw [hd] at h
      simp only [Bool.false_eq_true, if_false] at h
      rw [h]
      exact ⟨Or.inr (Or.inl ⟨hv, rfl⟩), by simp, by simp⟩
    · rw [hd] at h
      simp only [if_true, List.append_nil] at h
      rw [h]
      exact ⟨Or.inl rfl, by simp, by simp⟩
  · rw [if_neg hv] at h
    cases hA : (strconv.Atoi v.value).2 with
    | none =>
      rw [hA] at h
      simp only [List.append_nil] at h
      rw [h]
      exact ⟨Or.inl rfl, by simp, by simp⟩
    | some e =>
      rw [hA] at h
      rw [h]
      exact ⟨Or.inr (Or.inr ⟨hv, e, rfl, rfl⟩), by simp, by simp⟩

end envy
